import Mathlib

/-!
Verification development for the configuration resolution engine of this
repository (`AgentWorkspaceConfiguration`, exercised by the vitest suite in
`src/unnamed/part_000`) and for the chat-cell helper `makeHumanMessageInfo`
(`src/vscode/webviews/chat/cells/messageCell/assistant/AssistantMessageCell.tsx`).

The implementation file `AgentWorkspaceConfiguration.ts` itself is not part of
the sources available here; only its test suite is.  The resolver is therefore
modelled from the specification (each such definition carries a doc comment
starting with `Modelled from the spec:`), and the concrete fixtures of the test
suite are transcribed verbatim to exercise the model.

JavaScript values are embedded as `JsonValue`.  Objects are association lists
with unique keys; key order inside an object is irrelevant to the JavaScript
semantics (`toStrictEqual` compares objects order-insensitively), so equality
of object values is expressed through the order-insensitive deep equality
`jsonEqv` wherever an object literal from the spec or test suite is compared
against a resolver output.
-/

namespace AgentConfig

/-- Embedding of the JavaScript/JSON values the configuration engine
manipulates: scalars (string, number, boolean, null), arrays, and objects
represented as association lists from string keys to values. -/
inductive JsonValue where
  | str (s : String)
  | num (n : Int)
  | bool (b : Bool)
  | null
  | arr (xs : List JsonValue)
  | obj (fields : List (String × JsonValue))
deriving Repr

/-- Test for object values: true exactly on `obj`. -/
def JsonValue.isObj : JsonValue → Bool
  | .obj _ => true
  | _ => false

/-- First-match lookup of key `k` in an object's field list. -/
def lookupKey (k : String) : List (String × JsonValue) → Option JsonValue
  | [] => none
  | (k', v) :: rest => if k' = k then some v else lookupKey k rest

/-- Set key `k` to `v` in a field list: the first occurrence of `k` is
replaced in place, and a missing key is appended at the end. -/
def setKey (k : String) (v : JsonValue) : List (String × JsonValue) → List (String × JsonValue)
  | [] => [(k, v)]
  | (k', v') :: rest => if k' = k then (k, v) :: rest else (k', v') :: setKey k v rest

mutual
/-- Modelled from the spec: the deep-merge used by the resolver's tree
materialization (§3 "Resolved View": object+object → recursive merge;
object+scalar, scalar+scalar, and every other combination → the
right-hand side replaces the left-hand side). -/
def deepMerge : JsonValue → JsonValue → JsonValue
  | .obj a, .obj b => .obj (mergeInto a b)
  | _, v => v

/-- Merge the field list `b` into the field list `a`, key by key, recursively
deep-merging values that collide on a key. -/
def mergeInto (a : List (String × JsonValue)) : List (String × JsonValue) → List (String × JsonValue)
  | [] => a
  | (k, v) :: rest =>
      let merged := match lookupKey k a with
        | some old => deepMerge old v
        | none => v
      mergeInto (setKey k merged a) rest
end

/-- Splits a character list at `'.'` separators, accumulating the current
segment in reverse. -/
def splitPathAux : List Char → List Char → List String
  | [], acc => [String.mk acc.reverse]
  | c :: cs, acc =>
      if c = '.' then String.mk acc.reverse :: splitPathAux cs []
      else splitPathAux cs (c :: acc)

/-- Embedding of JavaScript `path.split('.')`, the dotted-path decomposition
used by every operation of the engine. -/
def splitPath (s : String) : List String := splitPathAux s.data []

/-- Wrap a value in nested singleton objects along a key path:
`nestPath [a, b] v = {a: {b: v}}`. -/
def nestPath : List String → JsonValue → JsonValue
  | [], v => v
  | k :: rest, v => .obj [(k, nestPath rest v)]

mutual
/-- Modelled from the spec: dotted-key decomposition of the parsed
`customConfigurationJson` blob (§3 layer 3, §8 "Generic JSON-blob keys
resolve via dotted paths").  Every object key containing dots is split and
re-nested; sibling keys that land on a common prefix are deep-merged.  The
decomposition applies at every nesting depth. -/
def expandValue : JsonValue → JsonValue
  | .obj fields => expandFields (.obj []) fields
  | v => v

/-- Fold the dotted-key decomposition of each field into an accumulator,
later fields winning on conflict via `deepMerge`. -/
def expandFields (acc : JsonValue) : List (String × JsonValue) → JsonValue
  | [] => acc
  | (k, v) :: rest =>
      expandFields (deepMerge acc (nestPath (splitPath k) (expandValue v))) rest
end

/-- Walk a materialized tree level by level along a segment list.  A missing
key, or a non-object node encountered while segments remain, yields `none`
("not found"). -/
def navigate : List String → JsonValue → Option JsonValue
  | [], v => some v
  | k :: rest, .obj fields =>
      match lookupKey k fields with
      | some v => navigate rest v
      | none => none
  | _ :: _, _ => none

/-- Modelled from the spec: the override writer's deep-set (§4.3).  Walks and
creates intermediate object nodes as needed (a missing or non-object
intermediate becomes a fresh empty object) and assigns the final segment to
`v`, replacing whatever was there (replace-at-target, merge-through-ancestors). -/
def deepSet : List String → JsonValue → JsonValue → JsonValue
  | [], v, _ => v
  | k :: rest, v, .obj fields =>
      let sub := (lookupKey k fields).getD (.obj [])
      .obj (setKey k (deepSet rest v sub) fields)
  | k :: rest, v, _ => .obj [(k, deepSet rest v (.obj []))]

/-- Every key of the first list occurs in the second. -/
def keysIncluded : List (String × JsonValue) → List (String × JsonValue) → Bool
  | [], _ => true
  | (k, _) :: rest, a => (lookupKey k a).isSome && keysIncluded rest a

mutual
/-- Order-insensitive deep equality of embedded JavaScript values: the
equality `toStrictEqual` of the test suite uses on objects.  Scalars and
arrays compare structurally; objects compare as finite maps (same key set,
recursively equal values), ignoring field order. -/
def jsonEqv : JsonValue → JsonValue → Bool
  | .str a, .str b => a == b
  | .num a, .num b => a == b
  | .bool a, .bool b => a == b
  | .null, .null => true
  | .arr xs, .arr ys => jsonListEqv xs ys
  | .obj a, .obj b => jsonFieldsSub a b && keysIncluded b a
  | _, _ => false

/-- Pointwise `jsonEqv` on arrays. -/
def jsonListEqv : List JsonValue → List JsonValue → Bool
  | [], [] => true
  | x :: xs, y :: ys => jsonEqv x y && jsonListEqv xs ys
  | _, _ => false

/-- Every field of the first list is present in the second with a
`jsonEqv`-equal value. -/
def jsonFieldsSub : List (String × JsonValue) → List (String × JsonValue) → Bool
  | [], _ => true
  | (k, v) :: rest, b =>
      (match lookupKey k b with
       | some w => jsonEqv v w
       | none => false) && jsonFieldsSub rest b
end

/-- Key-uniqueness at one object level. -/
def keysNodup : List (String × JsonValue) → Bool
  | [] => true
  | (k, _) :: rest => (lookupKey k rest).isNone && keysNodup rest

mutual
/-- Well-formedness of an embedded value: every object level has unique keys,
recursively. -/
def wfJ : JsonValue → Bool
  | .obj fs => keysNodup fs && wfFields fs
  | _ => true

/-- Well-formedness of every value of a field list. -/
def wfFields : List (String × JsonValue) → Bool
  | [] => true
  | (_, v) :: rest => wfJ v && wfFields rest
end

/-- Modelled from the spec: the host client descriptor `ClientInfo`
(§6 constructor inputs): name, version, ideVersion, capability flags
(`globalState`, `webview`), and the workspace root. -/
structure ClientCapabilities where
  globalState : Option String
  webview : Option String

/-- Modelled from the spec: `ClientInfo { name, version, ideVersion,
capabilities, workspaceRootUri }`. -/
structure ClientInfo where
  name : String
  version : String
  ideVersion : Option String
  capabilities : Option ClientCapabilities
  workspaceRootUri : String

/-- Modelled from the spec: the flat host settings payload
`ExtensionConfiguration` (§6).  `customConfigurationJson` holds the
*parsed* JSON blob; `none` covers both an absent field and a blob whose
parse failed (the spec's §7 recovery: a malformed blob is skipped). -/
structure ExtensionConfiguration where
  serverEndpoint : Option String
  customHeaders : Option JsonValue
  telemetryClientName : Option String
  autocompleteAdvancedProvider : Option String
  autocompleteAdvancedModel : Option String
  verboseDebug : Option Bool
  codebase : Option String
  customConfigurationJson : Option JsonValue

/-- Deep-set an optional value, skipping absent sources entirely (the spec's
§4.1: absent source values are omitted, not set to null). -/
def setOpt (path : List String) (v : Option JsonValue) (t : JsonValue) : JsonValue :=
  match v with
  | some v => deepSet path v t
  | none => t

/-- Modelled from the spec: the fixed projection mapping of §6, building the
static-projection layer from the current `ClientInfo` and
`ExtensionConfiguration`.  Constant rows are set unconditionally; field rows
are set only when the source value is present; the two capability rows are
set to `true` exactly when `globalState == 'server-managed'` resp.
`webview == 'native'`. -/
def projectionLayer (ci : ClientInfo) (ec : ExtensionConfiguration) : JsonValue :=
  let t := JsonValue.obj []
  let t := setOpt ["cody", "serverEndpoint"] (ec.serverEndpoint.map .str) t
  let t := setOpt ["cody", "customHeaders"] ec.customHeaders t
  let t := setOpt ["cody", "telemetry", "clientName"] (ec.telemetryClientName.map .str) t
  let t := deepSet ["cody", "telemetry", "level"] (.str "agent") t
  let t := setOpt ["cody", "autocomplete", "advanced", "provider"]
      (ec.autocompleteAdvancedProvider.map .str) t
  let t := setOpt ["cody", "autocomplete", "advanced", "model"]
      (ec.autocompleteAdvancedModel.map .str) t
  let t := deepSet ["cody", "autocomplete", "enabled"] (.bool true) t
  let t := deepSet ["cody", "advanced", "agent", "running"] (.bool true) t
  let t := setOpt ["cody", "debug", "verbose"] (ec.verboseDebug.map .bool) t
  let t := deepSet ["cody", "experimental", "tracing"] (.bool true) t
  let t := setOpt ["cody", "codebase"] (ec.codebase.map .str) t
  let t := deepSet ["cody", "advanced", "agent", "extension", "version"] (.str ci.version) t
  let t := setOpt ["cody", "advanced", "agent", "ide", "version"] (ci.ideVersion.map .str) t
  let t := deepSet ["cody", "advanced", "agent", "ide", "name"] (.str "VSCode") t
  let t := if (ci.capabilities.bind (·.globalState)) = some "server-managed" then
      deepSet ["cody", "advanced", "agent", "capabilities", "storage"] (.bool true) t else t
  let t := if (ci.capabilities.bind (·.webview)) = some "native" then
      deepSet ["cody", "advanced", "hasNativeWebview"] (.bool true) t else t
  t

/-- Modelled from the spec: the layer contributed by the parsed
`customConfigurationJson` blob — its dotted keys decomposed and merged
(lowest priority among the three layers, §4.1). -/
def blobLayer (ec : ExtensionConfiguration) : JsonValue :=
  match ec.customConfigurationJson with
  | some b => expandValue b
  | none => .obj []

/-- Modelled from the spec: the resolver's state — the override store backing
the constructor pairs and runtime writes, plus the (current values of the)
two host accessors.  The accessors are re-read on every resolve; in this
pure model they are represented by their current return values. -/
structure Resolver where
  overrides : JsonValue
  clientInfo : ClientInfo
  extensionConfig : ExtensionConfiguration

/-- Modelled from the spec: constructor — the ordered override pairs are
deep-set, in order, into an initially empty override store (§3 layer 1). -/
def mkResolver (pairs : List (String × JsonValue)) (ci : ClientInfo)
    (ec : ExtensionConfiguration) : Resolver :=
  { overrides := pairs.foldl (fun t p => deepSet (splitPath p.1) p.2 t) (.obj [])
    clientInfo := ci
    extensionConfig := ec }

/-- Modelled from the spec: full tree materialization on every read (§4.1):
start empty, merge the blob layer (lowest priority), then the static
projection layer, then the override store on top (override store wins on
leaf conflicts). -/
def resolveView (r : Resolver) : JsonValue :=
  deepMerge (deepMerge (blobLayer r.extensionConfig)
    (projectionLayer r.clientInfo r.extensionConfig)) r.overrides

/-- Modelled from the spec: `get(path)` without a default — split the path on
`.`, walk the freshly materialized view; `none` models `undefined`. -/
def get (r : Resolver) (path : String) : Option JsonValue :=
  navigate (splitPath path) (resolveView r)

/-- Modelled from the spec: `get(path, defaultValue)` — the default is
returned whenever the traversal fails. -/
def getD (r : Resolver) (path : String) (d : JsonValue) : JsonValue :=
  (get r path).getD d

/-- Modelled from the spec: `has(path)` — whether the full path resolves to a
defined value; intermediate containers count as present. -/
def has (r : Resolver) (path : String) : Bool :=
  (get r path).isSome

/-- Modelled from the spec: `inspect(path)` always returns "no information"
(`undefined`); provenance is not tracked. -/
def inspect (_ : Resolver) (_ : String) : Option JsonValue :=
  none

/-- Modelled from the spec: `update(path, value)` — deep-set into the override
store's backing tree; subsequent resolves reflect the write.  The operation's
asynchrony carries no behaviour (§5), so it is modelled as the synchronous
state transition. -/
def update (r : Resolver) (path : String) (v : JsonValue) : Resolver :=
  { r with overrides := deepSet (splitPath path) v r.overrides }

/-! ### The fixtures of the test suite, transcribed verbatim. -/

/-- The `clientInfo` fixture of the test suite. -/
def clientInfoFixture : ClientInfo :=
  { name := "vscode"
    version := "1.0.0"
    ideVersion := some "1.80.0"
    capabilities := some { globalState := some "server-managed", webview := some "native" }
    workspaceRootUri := "/" }

/-- The parsed form of the `customConfigJson` fixture of the test suite. -/
def blobFixture : JsonValue :=
  .obj [
    ("http.systemCertificates", .bool true),
    ("http.experimental.systemCertificatesV2", .bool true),
    ("cody.debug", .obj [("verbose", .bool true)]),
    ("cody.autocomplete.advanced.provider", .str "anthropic"),
    ("cody.experimental", .obj [("tracing", .bool true)]),
    ("cody.telemetry", .obj [("level", .str "agent")]),
    ("editor", .obj [("insertSpaces", .bool true)]),
    ("foo.bar", .obj [
      ("baz.qux", .bool true),
      ("baz", .obj [("d1.d2", .obj [("v", .num 1)])])])]

/-- The `extensionConfig` fixture of the test suite. -/
def extensionConfigFixture : ExtensionConfiguration :=
  { serverEndpoint := some "https://sourcegraph.test"
    customHeaders := some (.obj [("X-Test", .str "test")])
    telemetryClientName := some "test-client"
    autocompleteAdvancedProvider := some "anthropic"
    autocompleteAdvancedModel := some "claude-2"
    verboseDebug := some true
    codebase := some "test-repo"
    customConfigurationJson := some blobFixture }

/-- The resolver constructed in the test suite's `beforeEach`: no constructor
override pairs, the two fixtures as accessors. -/
def configFixture : Resolver :=
  mkResolver [] clientInfoFixture extensionConfigFixture

/-- Order-insensitive deep equality lifted to optional values (`none` models
`undefined`). -/
def jsonEqvOpt : Option JsonValue → Option JsonValue → Bool
  | none, none => true
  | some a, some b => jsonEqv a b
  | _, _ => false

/-- The fields of an object node, and `[]` for every other node: the shape
`deepSet` works on at an intermediate path segment. -/
def fieldsOf : JsonValue → List (String × JsonValue)
  | .obj fs => fs
  | _ => []

/-- The child of a node under one key: the existing sub-object when present,
a fresh empty object otherwise (also when the node itself is no object). -/
def childOf (s : JsonValue) (k : String) : JsonValue :=
  match s with
  | .obj fs => (lookupKey k fs).getD (.obj [])
  | _ => .obj []

/-! ### A heap model of returned values

JavaScript object values returned by `get` live on a heap and can be mutated
in place by the caller.  To express the read-isolation property (each read
returns a fresh deep copy), object values handed to the caller are realized
into an explicit heap of object cells; a caller-side field assignment mutates
a cell; reads performed later realize fresh cells.  Non-object leaves are
immutable primitives and stay inline. -/

/-- A value as seen by the caller: an immutable primitive, or a reference to
a mutable object cell on the heap. -/
inductive HeapVal where
  | prim (v : JsonValue)
  | ref (addr : Nat)
deriving Repr

/-- The caller-side heap: an allocation counter and the allocated object
cells, each mapping field names to values. -/
structure Heap where
  next : Nat
  cells : List (Nat × List (String × HeapVal))
deriving Repr

/-- The empty heap. -/
def emptyHeap : Heap := ⟨0, []⟩

/-- First-match lookup of an object cell by address. -/
def lookupCell (a : Nat) : List (Nat × List (String × HeapVal)) →
    Option (List (String × HeapVal))
  | [] => none
  | (a', fs) :: rest => if a' = a then some fs else lookupCell a rest

/-- The object cell stored at address `a`, when allocated. -/
def cellAt (h : Heap) (a : Nat) : Option (List (String × HeapVal)) :=
  lookupCell a h.cells

/-- Set a field of a caller-visible object cell's field list. -/
def setFieldKey (k : String) (v : HeapVal) : List (String × HeapVal) →
    List (String × HeapVal)
  | [] => [(k, v)]
  | (k', v') :: rest => if k' = k then (k, v) :: rest else (k', v') :: setFieldKey k v rest

/-- First-match lookup of a field of a caller-visible object cell. -/
def lookupField (k : String) : List (String × HeapVal) → Option HeapVal
  | [] => none
  | (k', v) :: rest => if k' = k then some v else lookupField k rest

/-- Replace field `k` with `v` inside the cell at address `a`. -/
def updateCells (a : Nat) (k : String) (v : HeapVal) :
    List (Nat × List (String × HeapVal)) → List (Nat × List (String × HeapVal))
  | [] => []
  | (a', fs) :: rest =>
      if a' = a then (a', setFieldKey k v fs) :: rest
      else (a', fs) :: updateCells a k v rest

mutual
/-- Realize a pure configuration value into the heap: every object node is
allocated as a fresh cell (a deep copy by construction), primitives stay
inline.  Returns the extended heap and the caller-visible value. -/
def realize : JsonValue → Heap → Heap × HeapVal
  | .obj fields, h =>
      let r := realizeFields fields h
      (⟨r.1.next + 1, (r.1.next, r.2) :: r.1.cells⟩, .ref r.1.next)
  | v, h => (h, .prim v)

/-- Realize each field value in sequence, threading the heap. -/
def realizeFields : List (String × JsonValue) → Heap → Heap × List (String × HeapVal)
  | [], h => (h, [])
  | (k, v) :: rest, h =>
      let r1 := realize v h
      let r2 := realizeFields rest r1.1
      (r2.1, (k, r1.2) :: r2.2)
end

/-- Caller-side mutation `target.k = v`: writes through the reference into
the heap cell; assigning to a field of a primitive is a no-op. -/
def mutateField (h : Heap) (target : HeapVal) (k : String) (v : HeapVal) : Heap :=
  match target with
  | .ref a => ⟨h.next, updateCells a k v h.cells⟩
  | .prim _ => h

/-- Modelled from the spec: `get` as observed by the caller — the resolved
value (if any) is handed out as a fresh deep copy realized on the heap
(§4.2 "each call to get on a non-scalar value returns a new deep copy"). -/
def getOnHeap (r : Resolver) (path : String) (h : Heap) : Heap × Option HeapVal :=
  match get r path with
  | some t =>
      let rr := realize t h
      (rr.1, some rr.2)
  | none => (h, none)

/-- Caller-side field read `target.k` through the heap. -/
def readField (h : Heap) (target : Option HeapVal) (k : String) : Option HeapVal :=
  match target with
  | some (.ref a) => (cellAt h a).bind (lookupField k)
  | _ => none

end AgentConfig

namespace ChatCell

/-!
Embedding of `makeHumanMessageInfo` from
`src/vscode/webviews/chat/cells/messageCell/assistant/AssistantMessageCell.tsx`.

The helpers `serializedPromptEditorStateFromChatMessage` and
`contextItemsFromPromptEditorValue` come from the external
`@sourcegraph/cody-shared` package and are therefore parameters of the
embedding (an abstract serialized-editor-state type `α` and two total
functions).  The two function-valued fields of the result
(`rerunWithDifferentContext`, `appendAtMention`) are closures over the
editor ref with no data content of their own and are not part of the
embedded record; the claim under verification only concerns the throwing
behaviour and the `text` field.
-/

/-- Embedding of the branded `PromptString` type: its string content. -/
abbrev PromptString := String

/-- The fields of `ChatMessage` the function reads. -/
structure ChatMessage where
  text : Option PromptString
  intent : Option String

/-- The fields of the non-null `assistantMessage` the function reads. -/
structure AssistantMessage where
  index : Int
  text : Option PromptString

/-- Embedding of `Interaction` from `Transcript.tsx`: a human message and the
assistant message it led to, `none` modelling `null`. -/
structure Interaction where
  humanMessage : ChatMessage
  assistantMessage : Option AssistantMessage

/-- Embedding of `ContextItemSource`: the two members the function compares
against, plus a stand-in for every other member. -/
inductive ContextItemSource where
  | initial
  | user
  | other
deriving Repr, DecidableEq

/-- The fields of a context item the function reads. -/
structure ContextItem where
  type : String
  source : Option ContextItemSource

/-- Embedding of `HumanMessageInitialContextInfo`. -/
structure HumanMessageInitialContextInfo where
  repositories : Bool
  files : Bool
deriving Repr, DecidableEq

/-- The data fields of `PriorHumanMessageInfo` (the two closure-valued fields
are omitted, see the module comment). -/
structure PriorHumanMessageInfo where
  text : Option PromptString
  hasInitialContext : HumanMessageInitialContextInfo
  hasExplicitMentions : Bool

/-- Embedding of `makeHumanMessageInfo`: throws (`Except.error`) exactly on a
`null` assistant message, otherwise builds the info record from the context
items extracted out of the serialized human message. -/
def makeHumanMessageInfo {α : Type} (serialize : ChatMessage → α)
    (contextItemsFrom : α → List ContextItem) (i : Interaction) :
    Except String PriorHumanMessageInfo :=
  match i.assistantMessage with
  | none => .error "unreachable"
  | some _ =>
      let editorValue := serialize i.humanMessage
      let contextItems := contextItemsFrom editorValue
      .ok
        { text := i.humanMessage.text
          hasInitialContext :=
            { repositories :=
                contextItems.any fun item => item.type == "repository" || item.type == "tree"
              files :=
                contextItems.any fun item =>
                  item.type == "file" && item.source == some .initial }
          hasExplicitMentions :=
            contextItems.any fun item => item.source == some .user }

end ChatCell

namespace AgentConfig

/-! ### Association-list and merge lemmas -/

theorem lookup_setKey_self (k : String) (v : JsonValue) (l : List (String × JsonValue)) :
    lookupKey k (setKey k v l) = some v := by
  induction l with
  | nil => simp [setKey, lookupKey]
  | cons hd tl ih =>
      obtain ⟨k', v'⟩ := hd
      by_cases h : k' = k
      · subst h; simp [setKey, lookupKey]
      · simp [setKey, lookupKey, h, ih]

theorem lookup_setKey_ne (j k : String) (v : JsonValue) (l : List (String × JsonValue))
    (h : j ≠ k) : lookupKey j (setKey k v l) = lookupKey j l := by
  induction l with
  | nil => simp [setKey, lookupKey, Ne.symm h]
  | cons hd tl ih =>
      obtain ⟨k', v'⟩ := hd
      by_cases hk : k' = k
      · subst hk; simp [setKey, lookupKey, Ne.symm h]
      · by_cases hj : k' = j
        · subst hj
          simp [setKey, lookupKey, hk]
        · simp [setKey, lookupKey, hk, hj, ih]

theorem keysNodup_setKey (k : String) (v : JsonValue) (l : List (String × JsonValue))
    (h : keysNodup l = true) : keysNodup (setKey k v l) = true := by
  induction l with
  | nil => simp [setKey, keysNodup, lookupKey]
  | cons hd tl ih =>
      obtain ⟨k', v'⟩ := hd
      simp [keysNodup, Bool.and_eq_true] at h
      by_cases hk : k' = k
      · subst hk
        simp [setKey, keysNodup, Bool.and_eq_true]
        exact h
      · simp [setKey, hk, keysNodup, Bool.and_eq_true]
        refine ⟨?_, ih h.2⟩
        rw [lookup_setKey_ne k' k v tl hk]
        exact h.1

theorem lookup_mergeInto (j : String) (a b : List (String × JsonValue))
    (hb : keysNodup b = true) :
    lookupKey j (mergeInto a b) =
      match lookupKey j b with
      | some bv =>
          some (match lookupKey j a with
                | some av => deepMerge av bv
                | none => bv)
      | none => lookupKey j a := by
  induction b generalizing a with
  | nil => simp [mergeInto, lookupKey]
  | cons hd rest ih =>
      obtain ⟨k0, v0⟩ := hd
      simp [keysNodup, Bool.and_eq_true, Option.isNone_iff_eq_none] at hb
      by_cases hj : k0 = j
      · subst hj
        simp [mergeInto, lookupKey, ih _ hb.2, hb.1, lookup_setKey_self]
      · simp [mergeInto, lookupKey, hj, ih _ hb.2, lookup_setKey_ne j k0 _ _ (Ne.symm hj)]

/-! ### Well-formedness lemmas -/

theorem wfJ_obj_iff (fs : List (String × JsonValue)) :
    wfJ (.obj fs) = true ↔ (keysNodup fs = true ∧ wfFields fs = true) := by
  simp [wfJ, Bool.and_eq_true]

theorem wfFields_lookup (k : String) (fs : List (String × JsonValue)) (v : JsonValue)
    (h : wfFields fs = true) (hl : lookupKey k fs = some v) : wfJ v = true := by
  induction fs with
  | nil => simp [lookupKey] at hl
  | cons hd tl ih =>
      obtain ⟨k', v'⟩ := hd
      simp [wfFields, Bool.and_eq_true] at h
      by_cases hk : k' = k
      · simp [lookupKey, hk] at hl
        exact hl ▸ h.1
      · simp [lookupKey, hk] at hl
        exact ih h.2 hl

theorem deepSet_cons (k : String) (rest : List String) (v s : JsonValue) :
    deepSet (k :: rest) v s = .obj (setKey k (deepSet rest v (childOf s k)) (fieldsOf s)) := by
  cases s <;> simp [deepSet, childOf, fieldsOf, setKey]

theorem keysNodup_fieldsOf (s : JsonValue) (hs : wfJ s = true) :
    keysNodup (fieldsOf s) = true := by
  cases s <;> simp_all [fieldsOf, keysNodup, wfJ, Bool.and_eq_true]

theorem wfJ_childOf (s : JsonValue) (k : String) (hs : wfJ s = true) :
    wfJ (childOf s k) = true := by
  cases s with
  | obj fs =>
      rw [wfJ_obj_iff] at hs
      cases hlk : lookupKey k fs with
      | none => simp [childOf, hlk, wfJ, keysNodup, wfFields]
      | some w => simpa [childOf, hlk] using wfFields_lookup k fs w hs.2 hlk
  | _ => simp [childOf, wfJ, keysNodup, wfFields]

theorem deepMerge_nonobj_right (a v : JsonValue) (hv : v.isObj = false) :
    deepMerge a v = v := by
  cases a <;> cases v <;> simp_all [deepMerge, JsonValue.isObj]

theorem deepMerge_nonobj_left (a b : JsonValue) (ha : a.isObj = false) :
    deepMerge a b = b := by
  cases a <;> cases b <;> simp_all [deepMerge, JsonValue.isObj]

/-! ### Navigation lemmas -/

theorem navigate_deepSet (ks : List String) (v s : JsonValue) :
    navigate ks (deepSet ks v s) = some v := by
  induction ks generalizing s with
  | nil => rfl
  | cons k rest ih =>
      rw [deepSet_cons]
      simp [navigate, lookup_setKey_self]
      exact ih _

/-- Core override-wins lemma: deep-setting a non-object value `v` along `ks`
into a well-formed store and then merging any layer `a` underneath still
resolves `ks` to exactly `v`. -/
theorem navigate_merge_deepSet (ks : List String) (v : JsonValue) :
    ∀ (s a : JsonValue), wfJ s = true → v.isObj = false →
    navigate ks (deepMerge a (deepSet ks v s)) = some v := by
  induction ks with
  | nil =>
      intro s a _ hv
      simp [deepSet, deepMerge_nonobj_right a v hv, navigate]
  | cons k rest ih =>
      intro s a hs hv
      rw [deepSet_cons]
      have hbf : keysNodup (setKey k (deepSet rest v (childOf s k)) (fieldsOf s)) = true :=
        keysNodup_setKey _ _ _ (keysNodup_fieldsOf s hs)
      cases a with
      | obj af =>
          show navigate (k :: rest)
              (.obj (mergeInto af (setKey k (deepSet rest v (childOf s k)) (fieldsOf s)))) = some v
          simp only [navigate, lookup_mergeInto k af _ hbf, lookup_setKey_self]
          cases hka : lookupKey k af with
          | some av =>
              simpa using ih (childOf s k) av (wfJ_childOf s k hs) hv
          | none =>
              simpa using navigate_deepSet rest v (childOf s k)
      | str s' =>
          rw [deepMerge_nonobj_left (.str s') _ rfl]
          simp [navigate, lookup_setKey_self, navigate_deepSet]
      | num n =>
          rw [deepMerge_nonobj_left (.num n) _ rfl]
          simp [navigate, lookup_setKey_self, navigate_deepSet]
      | bool b =>
          rw [deepMerge_nonobj_left (.bool b) _ rfl]
          simp [navigate, lookup_setKey_self, navigate_deepSet]
      | null =>
          rw [deepMerge_nonobj_left .null _ rfl]
          simp [navigate, lookup_setKey_self, navigate_deepSet]
      | arr xs =>
          rw [deepMerge_nonobj_left (.arr xs) _ rfl]
          simp [navigate, lookup_setKey_self, navigate_deepSet]

theorem navigate_cons (k : String) (rest : List String) (t : JsonValue) :
    navigate (k :: rest) t = (navigate [k] t).bind (navigate rest) := by
  cases t with
  | obj fs => cases hlk : lookupKey k fs <;> simp [navigate, hlk]
  | str s => simp [navigate]
  | num n => simp [navigate]
  | bool b => simp [navigate]
  | null => simp [navigate]
  | arr xs => simp [navigate]

theorem splitPath_cody_append (sub : String) :
    splitPath ("cody." ++ sub) = "cody" :: splitPath sub := by
  simp [splitPath, String.data_append, splitPathAux]

/-! ### Heap lemmas: realization never touches existing cells -/

mutual
theorem realize_preserves : ∀ (t : JsonValue) (h : Heap) (a : Nat), a < h.next →
    cellAt (realize t h).1 a = cellAt h a ∧ h.next ≤ (realize t h).1.next
  | .obj fields, h, a, ha => by
      have hf := realizeFields_preserves fields h a ha
      have hne : ¬((realizeFields fields h).1.next = a) := by
        have hlt : a < (realizeFields fields h).1.next := Nat.lt_of_lt_of_le ha hf.2
        exact fun heq => absurd (heq ▸ hlt) (lt_irrefl a)
      constructor
      · show cellAt ⟨(realizeFields fields h).1.next + 1,
            ((realizeFields fields h).1.next, (realizeFields fields h).2) ::
              (realizeFields fields h).1.cells⟩ a = cellAt h a
        have hf1 := hf.1
        simp only [cellAt] at hf1 ⊢
        simp only [lookupCell, hne, if_false]
        exact hf1
      · show h.next ≤ (realizeFields fields h).1.next + 1
        exact Nat.le_trans hf.2 (Nat.le_succ _)
  | .str _, _, _, _ => ⟨rfl, Nat.le_refl _⟩
  | .num _, _, _, _ => ⟨rfl, Nat.le_refl _⟩
  | .bool _, _, _, _ => ⟨rfl, Nat.le_refl _⟩
  | .null, _, _, _ => ⟨rfl, Nat.le_refl _⟩
  | .arr _, _, _, _ => ⟨rfl, Nat.le_refl _⟩

theorem realizeFields_preserves : ∀ (fs : List (String × JsonValue)) (h : Heap) (a : Nat),
    a < h.next →
    cellAt (realizeFields fs h).1 a = cellAt h a ∧ h.next ≤ (realizeFields fs h).1.next
  | [], _, _, _ => ⟨rfl, Nat.le_refl _⟩
  | (_, v) :: rest, h, a, ha => by
      have h1 := realize_preserves v h a ha
      have h2 := realizeFields_preserves rest (realize v h).1 a (Nat.lt_of_lt_of_le ha h1.2)
      exact ⟨h2.1.trans h1.1, Nat.le_trans h1.2 h2.2⟩
end

end AgentConfig

/-! ## The claims -/

open AgentConfig ChatCell

/-- C1: For the example ClientInfo/ExtensionConfiguration fixtures, every
field listed in the fixed projection mapping resolves at its designated
dotted path: `get('cody.serverEndpoint')` is `'https://sourcegraph.test'`,
`get('cody.telemetry.level')` is `'agent'`, `get('cody.telemetry.clientName')`
is `'test-client'`, `get('cody.autocomplete.enabled')` is `true`,
`get('cody.autocomplete.advanced.provider')` is `'anthropic'`,
`get('cody.autocomplete.advanced.model')` is `'claude-2'`,
`get('cody.advanced.agent.running')` is `true`, `get('cody.debug.verbose')`
is `true`, `get('cody.codebase')` is `'test-repo'`,
`get('cody.advanced.agent.ide.name')` is `'VSCode'`,
`get('cody.advanced.agent.capabilities.storage')` is `true` (the fixture's
globalState capability is `'server-managed'`), and
`get('cody.advanced.hasNativeWebview')` is `true` (the fixture's webview
capability is `'native'`). -/
theorem C1_projected_fields_resolve :
    get configFixture "cody.serverEndpoint" = some (.str "https://sourcegraph.test") ∧
    get configFixture "cody.telemetry.level" = some (.str "agent") ∧
    get configFixture "cody.telemetry.clientName" = some (.str "test-client") ∧
    get configFixture "cody.autocomplete.enabled" = some (.bool true) ∧
    get configFixture "cody.autocomplete.advanced.provider" = some (.str "anthropic") ∧
    get configFixture "cody.autocomplete.advanced.model" = some (.str "claude-2") ∧
    get configFixture "cody.advanced.agent.running" = some (.bool true) ∧
    get configFixture "cody.debug.verbose" = some (.bool true) ∧
    get configFixture "cody.codebase" = some (.str "test-repo") ∧
    get configFixture "cody.advanced.agent.ide.name" = some (.str "VSCode") ∧
    get configFixture "cody.advanced.agent.capabilities.storage" = some (.bool true) ∧
    get configFixture "cody.advanced.hasNativeWebview" = some (.bool true) :=
  ⟨rfl, rfl, rfl, rfl, rfl, rfl, rfl, rfl, rfl, rfl, rfl, rfl⟩

/-- C2: Dotted keys occurring inside the parsed customConfigurationJson blob
are decomposed into nested tree levels and merged, at every nesting depth:
with the blob containing `{"foo.bar": {"baz.qux": true, "baz": {"d1.d2":
{"v": 1}}}}`, `get('foo.bar.baz.qux')` returns `true`, `get('foo.bar.baz')`
returns the merged object `{d1: {d2: {v: 1}}, qux: true}` (the sibling dotted
keys `'baz.qux'` and `'baz'` merge into one subtree), and
`get('foo.bar.baz.d1')` returns `{d2: {v: 1}}`.  Object results are compared
with the order-insensitive deep equality `jsonEqvOpt` (JavaScript object key
order is not significant). -/
theorem C2_blob_dotted_keys_decomposed :
    get configFixture "foo.bar.baz.qux" = some (.bool true) ∧
    jsonEqvOpt (get configFixture "foo.bar.baz")
      (some (.obj [("d1", .obj [("d2", .obj [("v", .num 1)])]), ("qux", .bool true)])) = true ∧
    jsonEqvOpt (get configFixture "foo.bar.baz.d1")
      (some (.obj [("d2", .obj [("v", .num 1)])])) = true :=
  ⟨rfl, rfl, rfl⟩

/-- C3: Reading a section prefix returns the full merged subtree under that
prefix: for the fixtures, `get('cody')` returns the complete object combining
every projected `cody.*` field with the blob-supplied `cody.*` keys, and
`get('http')` returns `{experimental: {systemCertificatesV2: true},
systemCertificates: true}` assembled from the two dotted blob keys.  The
returned subtree is exactly the union of all individually reachable values
under the prefix: for every suffix `sub`, `get('cody.' + sub)` equals
navigation by `sub` inside the object returned by `get('cody')`. -/
theorem C3_section_reads_full_subtrees :
    jsonEqvOpt (get configFixture "cody")
      (some (.obj [
        ("advanced", .obj [
          ("agent", .obj [
            ("capabilities", .obj [("storage", .bool true)]),
            ("extension", .obj [("version", .str "1.0.0")]),
            ("ide", .obj [("name", .str "VSCode"), ("version", .str "1.80.0")]),
            ("running", .bool true)]),
          ("hasNativeWebview", .bool true)]),
        ("autocomplete", .obj [
          ("advanced", .obj [("model", .str "claude-2"), ("provider", .str "anthropic")]),
          ("enabled", .bool true)]),
        ("codebase", .str "test-repo"),
        ("customHeaders", .obj [("X-Test", .str "test")]),
        ("debug", .obj [("verbose", .bool true)]),
        ("experimental", .obj [("tracing", .bool true)]),
        ("serverEndpoint", .str "https://sourcegraph.test"),
        ("telemetry", .obj [("clientName", .str "test-client"), ("level", .str "agent")])])) =
      true ∧
    jsonEqvOpt (get configFixture "http")
      (some (.obj [
        ("experimental", .obj [("systemCertificatesV2", .bool true)]),
        ("systemCertificates", .bool true)])) = true ∧
    ∀ sub : String,
      get configFixture ("cody." ++ sub) =
        (get configFixture "cody").bind (navigate (splitPath sub)) := by
  refine ⟨rfl, rfl, fun sub => ?_⟩
  show navigate (splitPath ("cody." ++ sub)) (resolveView configFixture) = _
  rw [splitPath_cody_append, navigate_cons]
  rfl

/-- C4 counterexample: the put-get round trip fails for object values at a
path where a lower layer also supplies an object.  With the fixtures, after
`update('cody.telemetry', {})`, `get('cody.telemetry')` is not `{}` — the
resolved view deep-merges the override store's `{}` with the projected
telemetry object, so the read returns `{level: 'agent', clientName:
'test-client'}`. -/
theorem C4_object_roundtrip_counterexample :
    get (update configFixture "cody.telemetry" (.obj [])) "cody.telemetry" ≠
      some (.obj []) := by
  simp only [show get (update configFixture "cody.telemetry" (.obj [])) "cody.telemetry" =
      some (.obj [("level", .str "agent"), ("clientName", .str "test-client")]) from rfl]
  simp

/-- C4 (amended): put-get round trip for non-object leaf values — for every
dotted path `p`, every non-object value `v` (scalar, boolean, null, array),
and every resolver state with a well-formed override store, once
`update(p, v)` has completed, `get(p)` returns exactly `v` (and `get(p, d)`
returns `v` for any default `d`), including when `p` was entirely absent
before and when `p` is a projected default. -/
theorem C4_update_get_roundtrip (r : Resolver) (p : String) (v : JsonValue)
    (hwf : wfJ r.overrides = true) (hv : v.isObj = false) :
    get (update r p v) p = some v ∧ ∀ d, getD (update r p v) p d = v := by
  have hget : get (update r p v) p = some v :=
    navigate_merge_deepSet (splitPath p) v r.overrides _ hwf hv
  refine ⟨hget, fun d => ?_⟩
  show (get (update r p v) p).getD d = v
  rw [hget]
  rfl

/-- C4 witness: the round trip at the fresh path of the test suite,
`update('newSection.newSubSection', 'value')`. -/
theorem C4_update_get_roundtrip_witness :
    wfJ configFixture.overrides = true ∧
    (JsonValue.str "value").isObj = false ∧
    (get (update configFixture "newSection.newSubSection" (.str "value"))
        "newSection.newSubSection" = some (.str "value") ∧
     ∀ d, getD (update configFixture "newSection.newSubSection" (.str "value"))
        "newSection.newSubSection" d = .str "value") :=
  ⟨rfl, rfl,
    C4_update_get_roundtrip configFixture "newSection.newSubSection" (.str "value") rfl rfl⟩

/-- C5 counterexample: the ExtensionConfiguration-projected value does not
prevail over a runtime-written value.  With the fixtures, after
`update('cody.serverEndpoint', 'https://new-endpoint.test')` the subsequent
read returns the written value, not the projected
`'https://sourcegraph.test'`. -/
theorem C5_projection_wins_counterexample :
    get (update configFixture "cody.serverEndpoint" (.str "https://new-endpoint.test"))
      "cody.serverEndpoint" ≠ some (.str "https://sourcegraph.test") := by
  simp only [show get (update configFixture "cody.serverEndpoint"
        (.str "https://new-endpoint.test")) "cody.serverEndpoint" =
      some (.str "https://new-endpoint.test") from rfl]
  simp

/-- C5 (amended): the resolved view is built from three layers applied in
order — (1) the parsed customConfigurationJson blob (lowest), (2) the
ClientInfo/ExtensionConfiguration projections, (3) the override store holding
the constructor-supplied pairs and the runtime update writes — with later
layers winning on leaf conflict.  In particular, with no override present the
projected `cody.serverEndpoint` is read; a constructor pair at that path
prevails over the projection; and a runtime-written value prevails over the
projection in every subsequent read. -/
theorem C5_layer_order :
    get configFixture "cody.serverEndpoint" = some (.str "https://sourcegraph.test") ∧
    get (mkResolver [("cody.serverEndpoint", .str "https://constructor.test")]
        clientInfoFixture extensionConfigFixture) "cody.serverEndpoint" =
      some (.str "https://constructor.test") ∧
    get (update configFixture "cody.serverEndpoint" (.str "https://new-endpoint.test"))
      "cody.serverEndpoint" = some (.str "https://new-endpoint.test") ∧
    ∀ r : Resolver, resolveView r =
      deepMerge (deepMerge (blobLayer r.extensionConfig)
        (projectionLayer r.clientInfo r.extensionConfig)) r.overrides :=
  ⟨rfl, rfl, rfl, fun _ => rfl⟩

/-- C6: For every path not present after full resolution, `get(path, d)`
returns `d`, `get(path)` with no default returns `undefined` (`none`), and
`has(path)` returns `false`.  Absence — including a traversal that hits a
non-object node with segments remaining — is expressed purely through these
return values; every operation of the model is a total function, so no
exception can be raised for well-typed inputs. -/
theorem C6_absent_paths (r : Resolver) (p : String) (d : JsonValue)
    (habs : navigate (splitPath p) (resolveView r) = none) :
    get r p = none ∧ getD r p d = d ∧ has r p = false := by
  have hget : get r p = none := habs
  refine ⟨hget, ?_, ?_⟩
  · show (get r p).getD d = d
    rw [hget]
    rfl
  · show (get r p).isSome = false
    rw [hget]
    rfl

/-- C6 witness: the absent path `'unknown.section'` of the test suite, with
default `'default'`. -/
theorem C6_absent_paths_witness :
    navigate (splitPath "unknown.section") (resolveView configFixture) = none ∧
    (get configFixture "unknown.section" = none ∧
     getD configFixture "unknown.section" (.str "default") = .str "default" ∧
     has configFixture "unknown.section" = false) :=
  ⟨rfl, C6_absent_paths configFixture "unknown.section" (.str "default") rfl⟩

/-- C7: `has(path)` returns `true` for every path that resolves to a defined
value — in particular for the intermediate container `'http.experimental'`,
which exists only because the dotted blob key
`'http.experimental.systemCertificatesV2'` creates it, and which is itself no
explicit leaf. -/
theorem C7_has_defined_paths :
    (∀ (r : Resolver) (p : String) (v : JsonValue), get r p = some v → has r p = true) ∧
    has configFixture "http.experimental" = true ∧
    get configFixture "http.experimental" =
      some (.obj [("systemCertificatesV2", .bool true)]) := by
  refine ⟨fun r p v h => ?_, rfl, rfl⟩
  show (get r p).isSome = true
  rw [h]
  rfl

/-- C7 witness: `has('cody.serverEndpoint')` through the general clause. -/
theorem C7_has_defined_paths_witness :
    get configFixture "cody.serverEndpoint" = some (.str "https://sourcegraph.test") ∧
    has configFixture "cody.serverEndpoint" = true :=
  ⟨rfl, C7_has_defined_paths.1 configFixture "cody.serverEndpoint"
    (.str "https://sourcegraph.test") rfl⟩

/-- C8: Read isolation.  Every object value returned by `get` is realized as
a fresh heap cell, structurally independent of the resolver's internal state:
in the scenario of the test suite — `update('test.object', {key: 'value'})`,
`a := get('test.object')`, caller mutation `a.key = 'modified'`, then a second
`get('test.object')` — the second read still yields `key = 'value'` while the
mutated first copy holds `'modified'`.  Moreover a read never modifies any
previously allocated heap cell, so caller mutation of one returned value can
never leak into internal state or into a later read. -/
theorem C8_read_isolation :
    (let r := update configFixture "test.object" (.obj [("key", .str "value")])
     let g1 := getOnHeap r "test.object" emptyHeap
     let h2 := mutateField g1.1 (g1.2.getD (.prim .null)) "key" (.prim (.str "modified"))
     let g2 := getOnHeap r "test.object" h2
     readField g2.1 g2.2 "key" = some (.prim (.str "value")) ∧
     readField g2.1 g1.2 "key" = some (.prim (.str "modified"))) ∧
    ∀ (r : Resolver) (p : String) (h : Heap) (a : Nat),
      a < h.next → cellAt (getOnHeap r p h).1 a = cellAt h a := by
  constructor
  · exact ⟨rfl, rfl⟩
  · intro r p h a ha
    cases hg : get r p with
    | none => simp [getOnHeap, hg]
    | some t => simpa [getOnHeap, hg] using (realize_preserves t h a ha).1

/-- C8 witness: a read on a heap with one pre-existing cell leaves that cell
untouched. -/
theorem C8_read_isolation_witness :
    (0 : Nat) < (Heap.mk 1 [(0, [])]).next ∧
    cellAt (getOnHeap configFixture "cody" (Heap.mk 1 [(0, [])])).1 0 =
      cellAt (Heap.mk 1 [(0, [])]) 0 :=
  ⟨by decide, C8_read_isolation.2 configFixture "cody" (Heap.mk 1 [(0, [])]) 0 (by decide)⟩

/-- C9: For every path string, `inspect(path)` returns `undefined` — the
engine never reports configuration-layer provenance. -/
theorem C9_inspect_returns_none (r : Resolver) (p : String) : inspect r p = none := rfl

/-- C10: `makeHumanMessageInfo` throws (`Except.error "unreachable"`) for
every Interaction whose assistantMessage is null; for every Interaction with
a non-null assistantMessage it returns a `PriorHumanMessageInfo` whose `text`
field equals `humanMessage.text`; and an error result occurs only in the
null case.  The two external helpers from `@sourcegraph/cody-shared` are
arbitrary total functions. -/
theorem C10_makeHumanMessageInfo_behaviour {α : Type} (serialize : ChatMessage → α)
    (ctxOf : α → List ContextItem) (i : Interaction) :
    (i.assistantMessage = none →
      makeHumanMessageInfo serialize ctxOf i = .error "unreachable") ∧
    (∀ am, i.assistantMessage = some am →
      ∃ info, makeHumanMessageInfo serialize ctxOf i = .ok info ∧
        info.text = i.humanMessage.text) ∧
    (∀ e, makeHumanMessageInfo serialize ctxOf i = .error e →
      i.assistantMessage = none) := by
  obtain ⟨hm, aM⟩ := i
  cases aM with
  | none =>
      exact ⟨fun _ => rfl, fun am ham => Option.noConfusion ham, fun e _ => rfl⟩
  | some am0 =>
      exact ⟨fun h0 => Option.noConfusion h0, fun am _ => ⟨_, rfl, rfl⟩,
        fun e he => Except.noConfusion he⟩

/-- C10 witness: a null-assistant interaction errors, and a concrete
non-null interaction returns its human message text. -/
theorem C10_makeHumanMessageInfo_behaviour_witness :
    ((Interaction.mk ⟨some "hello", none⟩ none).assistantMessage = none ∧
     makeHumanMessageInfo (fun _ => ()) (fun _ => ([] : List ContextItem))
       (Interaction.mk ⟨some "hello", none⟩ none) = .error "unreachable") ∧
    (∃ info, makeHumanMessageInfo (fun _ => ()) (fun _ => ([] : List ContextItem))
       (Interaction.mk ⟨some "hello", none⟩ (some ⟨1, some "resp"⟩)) = .ok info ∧
       info.text = some "hello") :=
  ⟨⟨rfl, (C10_makeHumanMessageInfo_behaviour (fun _ => ()) (fun _ => [])
      (Interaction.mk ⟨some "hello", none⟩ none)).1 rfl⟩,
   (C10_makeHumanMessageInfo_behaviour (fun _ => ()) (fun _ => [])
      (Interaction.mk ⟨some "hello", none⟩ (some ⟨1, some "resp"⟩))).2.1
     ⟨1, some "resp"⟩ rfl⟩
